import Mathlib

/-!
Role grammar, repository constructors and role/type guard of `tuf/repo.go`.

A shallow embedding of `src/tuf/repo.go`.

* Go strings are embedded as Lean `String`s.  The role pattern contains only
  ASCII literals and ASCII classes, and Go's matcher works rune by rune, so a
  text is handled as its list of runes.  (A Go string that is not valid UTF-8
  has no counterpart here; the matcher reads each of its stray bytes as the
  rune U+FFFD, which no literal or class of the pattern matches.)
* A Go `error` result is an `Option GoError`; `none` is Go's `nil`.
* A function that may panic returns `Except Panic α`.
-/

namespace Tuf

/-! ## Regular expressions (the fragment of Go's `regexp` used by `roleRegex`) -/

/-- Abstract syntax of the regular expressions used in the file. -/
inductive Regex where
  /-- the empty expression -/
  | empty
  /-- `^` : at beginning of text -/
  | beginText
  /-- `$` : at end of text (Go without flag `m`: only the very end) -/
  | endText
  /-- a literal rune, such as `r` or `\.` -/
  | lit (c : Char)
  /-- a class `[lo-hi]` -/
  | range (lo hi : Char)
  /-- concatenation -/
  | cat (a b : Regex)
  /-- alternation `a|b` -/
  | alt (a b : Regex)
  /-- repetition `a*` -/
  | star (a : Regex)
  /-- repetition `a+` -/
  | plus (a : Regex)
  deriving Repr, DecidableEq

/-- A cursor into the text: how many runes lie before it, and the runes after it. -/
structure Cursor where
  before : Nat
  rest : List Char
  deriving Repr, DecidableEq

/-- Zero or more rounds of `f`, each round consuming at least one rune.  `fuel`
bounds the number of rounds; a text of `n` runes admits at most `n` of them. -/
def iterate (f : Cursor → List Cursor) : Nat → Cursor → List Cursor
  | 0, p => [p]
  | fuel + 1, p =>
    p :: ((f p).filter (fun q => decide (q.rest.length < p.rest.length))).flatMap (iterate f fuel)

/-- All cursors at which a match of the expression that starts at `p` can end. -/
def run : Regex → Cursor → List Cursor
  | .empty, p => [p]
  | .beginText, p => if p.before = 0 then [p] else []
  | .endText, p => if p.rest = [] then [p] else []
  | .lit c, p =>
    match p.rest with
    | d :: t => if d = c then [⟨p.before + 1, t⟩] else []
    | [] => []
  | .range lo hi, p =>
    match p.rest with
    | d :: t => if lo ≤ d ∧ d ≤ hi then [⟨p.before + 1, t⟩] else []
    | [] => []
  | .cat a b, p => (run a p).flatMap (run b)
  | .alt a b, p => run a p ++ run b p
  | .star a, p => iterate (run a) p.rest.length p
  | .plus a, p => (run a p).flatMap (fun q => iterate (run a) q.rest.length q)

/-- Go's `(*Regexp).MatchString`: the text contains some match of the expression,
starting at any rune offset. -/
def matchString (re : Regex) (s : String) : Bool :=
  (List.range (s.toList.length + 1)).any
    (fun i => !(run re ⟨i, s.toList.drop i⟩).isEmpty)

/-- The expression of a sequence of literal runes. -/
def lits : List Char → Regex
  | [] => .empty
  | c :: cs => .cat (.lit c) (lits cs)

/-- A whole-text alternative `^body$`. -/
def anchored (body : Regex) : Regex :=
  .cat .beginText (.cat body .endText)

/-- The constant `roleRegex`,
`^root$|^[1-9]*[0-9]+\.root$|^snapshot$|^timestamp$|^targets$`, as compiled by
`regexp.MustCompile`: alternation binds loosest, so it is five anchored
alternatives. -/
def roleRegex : Regex :=
  .alt (anchored (lits "root".toList))
    (.alt (anchored (.cat (.star (.range '1' '9'))
            (.cat (.plus (.range '0' '9')) (lits ".root".toList))))
      (.alt (anchored (lits "snapshot".toList))
        (.alt (anchored (lits "timestamp".toList))
          (anchored (lits "targets".toList)))))

/-! ## Errors and panics -/

/-- Error numbers a failed `os.Stat` can carry. -/
inductive Errno where
  | ENOENT
  | EACCES
  | ENOTDIR
  | ELOOP
  | ENAMETOOLONG
  deriving Repr, DecidableEq

/-- Go error values that occur in the file. -/
inductive GoError where
  /-- a `*os.PathError`, as returned by `os.Stat` -/
  | pathError (op path : String) (errno : Errno)
  /-- a `*url.Error`, as returned by `url.Parse` -/
  | urlError (op url reason : String)
  /-- the result of `errors.Errorf(format, args...)`, kept unformatted -/
  | errorf (format : String) (args : List String)
  /-- the result of `errors.Wrap(cause, message)` for a non-nil cause -/
  | wrap (cause : GoError) (message : String)
  deriving Repr, DecidableEq

/-- A run-time panic. -/
inductive Panic where
  /-- a method call through a nil interface or pointer -/
  | nilDereference
  /-- a call of `panic(msg)` -/
  | explicit (msg : String)
  deriving Repr, DecidableEq

/-- The function `errors.Wrap` of `github.com/pkg/errors`: it returns nil when
the error is nil. -/
def wrap (err : Option GoError) (message : String) : Option GoError :=
  match err with
  | none => none
  | some e => some (.wrap e message)

/-- The function `os.IsNotExist`: it looks through a `*PathError` at the error
number, and does not look through a wrapped error. -/
def isNotExist (err : Option GoError) : Bool :=
  match err with
  | some (.pathError _ _ .ENOENT) => true
  | _ => false

/-! ## Constants -/

def tufURLScheme : String := "https"

def tumAPIPattern : String := "/v2/%s/_trust/tuf/%s.json"

def healthzPath : String := "/_notary_server/health"

def defaultMaxResponseSize : Int := 5 * 1024 * 1024

def cacheControl : String := "Cache-Control"

def cachePolicyNoStore : String := "no-store"

/-! ## Repositories -/

/-- The type `role`, a string type. -/
abbrev role := String

structure localRepo where
  repoPath : String
  deriving Repr, DecidableEq

/-- The fields of a `url.URL` that `url.Parse` fills in. -/
structure URL where
  Scheme : String
  Opaque : String
  Host : String
  Path : String
  RawQuery : String
  Fragment : String
  deriving Repr, DecidableEq

/-- The struct `notaryRepo`; the field `url` is a pointer, nil when `none`. -/
structure notaryRepo where
  url : Option URL
  skipVerify : Bool
  gun : String
  maxResponseSize : Int
  deriving Repr, DecidableEq

/-- What `os.Stat` tells about a file; `isDir` is the answer of `IsDir()`. -/
structure FileInfo where
  name : String
  size : Int
  isDir : Bool
  deriving Repr, DecidableEq

/-- The file system as seen through `os.Stat`, which follows symlinks: a path
gives either a file info and a nil error, or a nil file info and an error. -/
abbrev Stat := String → Except GoError FileInfo

/-- The library function `url.Parse`: a text gives either a URL and a nil error,
or a nil URL and an error. -/
abbrev Parse := String → Except GoError URL

def validateURL (parse : Parse) (repoURL : String) : Option URL × Option GoError :=
  match parse repoURL with
  | .error err => (none, wrap (some err) "tuf remote repo url validation failed")
  | .ok u =>
    if u.Scheme ≠ tufURLScheme then
      (none, some (.errorf "tuf url scheme must be %q" [tufURLScheme]))
    else
      (some u, none)

def newNotaryRepo (parse : Parse) (baseURL gun : String) (maxResponseSize : Int)
    (skipVerify : Bool) : Option notaryRepo × Option GoError :=
  let res := validateURL parse baseURL
  let repo : notaryRepo :=
    { maxResponseSize := maxResponseSize, skipVerify := skipVerify, gun := gun,
      url := res.1 }
  if res.2 ≠ none then
    (none, wrap res.2 "new tuf remote repo")
  else
    (some repo, none)

/-- The path must exist and be a directory, or a symlink to a directory.  When the
stat fails with an error that `os.IsNotExist` does not recognise, `fi` is nil and
`fi.IsDir()` panics. -/
def validatePath (stat : Stat) (repoPath : String) : Except Panic (Option GoError) :=
  match stat repoPath with
  | .error err =>
    if isNotExist (some err) then
      .ok (wrap (some err) "tuf repo path validation failed")
    else
      .error .nilDereference
  | .ok fi =>
    if isNotExist none then
      .ok (wrap none "tuf repo path validation failed")
    else if !fi.isDir then
      .ok (some (.errorf "tuf repo path %q must be a directory" [repoPath]))
    else
      .ok none

def newLocalRepo (stat : Stat) (repoPath : String) :
    Except Panic (Option localRepo × Option GoError) :=
  match validatePath stat repoPath with
  | .error p => .error p
  | .ok (some err) => .ok (none, wrap (some err) "new tuf repo")
  | .ok none => .ok (some { repoPath := repoPath }, none)

def validateRole (r : role) : Option GoError :=
  if !matchString roleRegex r then
    some (.errorf "%q is not a valid role" [r])
  else
    none

/-! ## The role/type guard -/

/-- The four metadata types named in the type switch of `isRoleCorrect`. -/
inductive MetaType where
  | Root
  | Targets
  | Timestamp
  | Snapshot
  deriving Repr, DecidableEq

/-- The dynamic type of an `interface{}` argument. -/
inductive Payload where
  /-- a value of one of the four metadata types -/
  | value (t : MetaType)
  /-- a pointer to one of the four metadata types -/
  | pointer (t : MetaType)
  /-- a value of any other type -/
  | other (typeName : String)
  /-- the nil interface -/
  | nil
  deriving Repr, DecidableEq

/-- Modelled from the spec: the constant `roleRoot` is declared outside
`repo.go`; the spec names the role `root`. -/
def roleRoot : role := "root"

/-- Modelled from the spec: the constant `roleTargets` is declared outside
`repo.go`; the spec names the role `targets`. -/
def roleTargets : role := "targets"

/-- Modelled from the spec: the constant `roleTimestamp` is declared outside
`repo.go`; the spec names the role `timestamp`. -/
def roleTimestamp : role := "timestamp"

/-- Modelled from the spec: the constant `roleSnapshot` is declared outside
`repo.go`; the spec names the role `snapshot`. -/
def roleSnapshot : role := "snapshot"

def isRoleCorrect (r : role) (s : Payload) : Except Panic Unit :=
  let hit : Bool :=
    match s with
    | .value .Root | .pointer .Root => decide (r = roleRoot)
    | .value .Targets | .pointer .Targets => decide (r = roleTargets)
    | .value .Timestamp | .pointer .Timestamp => decide (r = roleTimestamp)
    | .value .Snapshot | .pointer .Snapshot => decide (r = roleSnapshot)
    | _ => false
  if !hit then
    .error (.explicit "Programmer error! Role name and role type mismatch.")
  else
    .ok ()

/-! ## The metadata request path -/

/-- Modelled from the spec: the call that fills in `tumAPIPattern` is outside
`repo.go`.  Substitution of string arguments for the `%s` verbs of a format, left to
right, on lists of runes; `%%` stands for a percent sign. -/
def substitute : List Char → List (List Char) → List Char
  | '%' :: 's' :: fmt, a :: args => a ++ substitute fmt args
  | '%' :: '%' :: fmt, args => '%' :: substitute fmt args
  | c :: fmt, args => c :: substitute fmt args
  | [], _ => []

/-- Modelled from the spec: the function that builds the request path from
`tumAPIPattern` is outside `repo.go`; the spec describes a path built from the
group identifier and the role name, `/v2/<group-id>/_trust/tuf/<role>.json`.
The two `%s` verbs of the pattern take the group and the role in this order. -/
def metadataPath (gun : String) (r : role) : String :=
  String.mk (substitute tumAPIPattern.toList [gun.toList, r.toList])

/-- Modelled from the spec: the request URL is the base URL followed by the
request path. -/
def metadataURL (baseURL gun : String) (r : role) : String :=
  baseURL ++ metadataPath gun r

/-! ## Notions of the specification -/

/-- A text is a numbered root when it is a non-empty run of ASCII digits
followed by `.root`. -/
def IsDigitsDotRoot (l : List Char) : Prop :=
  ∃ ds : List Char, ds ≠ [] ∧ (∀ c ∈ ds, '0' ≤ c ∧ c ≤ '9') ∧ l = ds ++ ".root".toList

/-- The role grammar of the specification: the four fixed names, and the decimal
numeral of a positive integer (written by `toString`, so without a leading zero)
followed by `.root`. -/
def InRoleGrammar (r : String) : Prop :=
  r = "root" ∨ r = "snapshot" ∨ r = "timestamp" ∨ r = "targets" ∨
    ∃ n : Nat, 0 < n ∧ r = toString n ++ ".root"

/-- The characters an accepted role may consist of: ASCII lowercase letters,
ASCII digits and the dot. -/
def IsRoleChar (c : Char) : Prop :=
  ('a' ≤ c ∧ c ≤ 'z') ∨ ('0' ≤ c ∧ c ≤ '9') ∨ c = '.'

/-- The pairing of role and payload type in the contract of the role/type guard:
root with Root, snapshot with Snapshot, timestamp with Timestamp, targets with
Targets. -/
def pairedType (r : role) : Option MetaType :=
  if r = "root" then some .Root
  else if r = "snapshot" then some .Snapshot
  else if r = "timestamp" then some .Timestamp
  else if r = "targets" then some .Targets
  else none

/-- The payload is a value of the type, or a pointer to it. -/
def IsValueOrPointerOf (t : MetaType) (s : Payload) : Prop :=
  s = .value t ∨ s = .pointer t

/-- The pattern `^root$|^[0-9]+\.root$|^snapshot$|^timestamp$|^targets$`, which is
`roleRegex` with the `[1-9]*` prefix of the numbered-root alternative left out;
the pattern `roleRegex` is compared with it. -/
def roleRegexWithoutNonzeroRun : Regex :=
  .alt (anchored (lits "root".toList))
    (.alt (anchored (.cat (.plus (.range '0' '9')) (lits ".root".toList)))
      (.alt (anchored (lits "snapshot".toList))
        (.alt (anchored (lits "timestamp".toList))
          (anchored (lits "targets".toList)))))

/-- The message of the panic raised by `isRoleCorrect`. -/
def mismatchMessage : String := "Programmer error! Role name and role type mismatch."

/-! ## The language of `roleRegex` -/

theorem exists_mem_of_not_isEmpty (re : Regex) (p : Cursor) :
    (!(run re p).isEmpty) = true ↔ ∃ q, q ∈ run re p := by
  cases h : run re p with
  | nil => simp
  | cons a l => simp

theorem matchString_iff (re : Regex) (s : String) :
    matchString re s = true ↔
      ∃ i, i ≤ s.toList.length ∧ ∃ q, q ∈ run re ⟨i, s.toList.drop i⟩ := by
  unfold matchString
  rw [List.any_eq_true]
  constructor
  · rintro ⟨i, hi, h⟩
    exact ⟨i, Nat.lt_succ_iff.mp (List.mem_range.mp hi), (exists_mem_of_not_isEmpty _ _).mp h⟩
  · rintro ⟨i, hi, h⟩
    exact ⟨i, List.mem_range.mpr (Nat.lt_succ_iff.mpr hi), (exists_mem_of_not_isEmpty _ _).mpr h⟩

theorem run_alt (a b : Regex) (p : Cursor) : run (.alt a b) p = run a p ++ run b p := by
  rw [run]

theorem mem_run_cat (a b : Regex) (p q : Cursor) :
    q ∈ run (.cat a b) p ↔ ∃ m, m ∈ run a p ∧ q ∈ run b m := by
  rw [run, List.mem_flatMap]

theorem mem_run_anchored (body : Regex) (p q : Cursor) :
    q ∈ run (anchored body) p ↔ p.before = 0 ∧ q ∈ run body p ∧ q.rest = [] := by
  simp only [anchored, run, List.mem_flatMap]
  constructor
  · rintro ⟨a, ha, b, hb, hq⟩
    split at ha
    · rename_i h0
      simp only [List.mem_singleton] at ha
      subst ha
      split at hq
      · rename_i hr
        simp only [List.mem_singleton] at hq
        subst hq
        exact ⟨h0, hb, hr⟩
      · simp at hq
    · simp at ha
  · rintro ⟨h0, hb, hr⟩
    exact ⟨p, by simp [h0], q, hb, by simp [hr]⟩

theorem mem_run_lits (w : List Char) (p q : Cursor) :
    q ∈ run (lits w) p ↔ p.rest = w ++ q.rest ∧ q.before = p.before + w.length := by
  induction w generalizing p with
  | nil =>
    obtain ⟨n, l⟩ := p
    obtain ⟨m, k⟩ := q
    simp only [lits, run, List.mem_singleton, Cursor.mk.injEq, List.nil_append,
      List.length_nil, Nat.add_zero]
    constructor
    · rintro ⟨h1, h2⟩; exact ⟨h2.symm, h1⟩
    · rintro ⟨h1, h2⟩; exact ⟨h2, h1.symm⟩
  | cons c cs ih =>
    obtain ⟨n, l⟩ := p
    simp only [lits, run, List.mem_flatMap]
    constructor
    · rintro ⟨a, ha, hq⟩
      cases l with
      | nil => simp at ha
      | cons d t =>
        simp only at ha
        split at ha
        · rename_i hdc
          simp only [List.mem_singleton] at ha
          subst ha
          obtain ⟨h1, h2⟩ := (ih _).mp hq
          simp only at h1 h2
          refine ⟨?_, ?_⟩
          · simp [hdc, h1]
          · simp [h2]; omega
        · simp at ha
    · rintro ⟨h1, h2⟩
      refine ⟨⟨n + 1, cs ++ q.rest⟩, ?_, ?_⟩
      · simp [h1]
      · exact (ih _).mpr ⟨rfl, by simp [h2]; omega⟩

theorem mem_run_range (lo hi : Char) (n : Nat) (l : List Char) (q : Cursor) :
    q ∈ run (.range lo hi) ⟨n, l⟩ ↔
      ∃ c t, l = c :: t ∧ (lo ≤ c ∧ c ≤ hi) ∧ q = ⟨n + 1, t⟩ := by
  cases l with
  | nil => simp [run]
  | cons d t =>
    simp only [run]
    split
    · rename_i h
      simp only [List.mem_singleton, List.cons.injEq]
      constructor
      · intro hq; exact ⟨d, t, ⟨rfl, rfl⟩, h, hq⟩
      · rintro ⟨c, t', ⟨rfl, rfl⟩, _, hq⟩; exact hq
    · rename_i h
      simp only [List.not_mem_nil, List.cons.injEq, false_iff]
      rintro ⟨c, t', ⟨rfl, rfl⟩, h', _⟩
      exact h h'

theorem mem_iterate_range (lo hi : Char) (q : Cursor) (fuel : Nat) :
    ∀ (n : Nat) (l : List Char), l.length ≤ fuel →
      (q ∈ iterate (run (.range lo hi)) fuel ⟨n, l⟩ ↔
        ∃ w, (∀ c ∈ w, lo ≤ c ∧ c ≤ hi) ∧ l = w ++ q.rest ∧ q.before = n + w.length) := by
  induction fuel with
  | zero =>
    intro n l hl
    have hnil : l = [] := List.length_eq_zero.mp (Nat.le_zero.mp hl)
    subst hnil
    obtain ⟨m, k⟩ := q
    simp only [iterate, List.mem_singleton, Cursor.mk.injEq]
    constructor
    · rintro ⟨rfl, rfl⟩; exact ⟨[], by simp⟩
    · rintro ⟨w, _, h1, h2⟩
      have h3 := List.append_eq_nil.mp h1.symm
      rw [h3.1] at h2
      exact ⟨by simpa using h2, h3.2⟩
  | succ fuel ih =>
    intro n l hl
    simp only [iterate, List.mem_cons, List.mem_flatMap, List.mem_filter, decide_eq_true_eq]
    constructor
    · rintro (rfl | ⟨a, ⟨ha, _⟩, hq⟩)
      · exact ⟨[], by simp⟩
      · obtain ⟨c, t, rfl, hc, rfl⟩ := (mem_run_range lo hi n l a).mp ha
        have ht : t.length ≤ fuel := by simp at hl; omega
        obtain ⟨w, hw, h1, h2⟩ := (ih (n + 1) t ht).mp hq
        refine ⟨c :: w, ?_, ?_, ?_⟩
        · intro d hd
          rcases List.mem_cons.mp hd with rfl | hd
          · exact hc
          · exact hw d hd
        · simp [h1]
        · simp [h2]; omega
    · rintro ⟨w, hw, h1, h2⟩
      cases w with
      | nil =>
        left
        obtain ⟨m, k⟩ := q
        simp only [List.nil_append, List.length_nil, Nat.add_zero] at h1 h2
        simp [h1, h2]
      | cons c w =>
        right
        have hc := hw c (List.mem_cons_self c w)
        have ht : (w ++ q.rest).length ≤ fuel := by
          rw [h1] at hl; simp at hl; simp; omega
        refine ⟨⟨n + 1, w ++ q.rest⟩, ⟨?_, ?_⟩, ?_⟩
        · exact (mem_run_range lo hi n l _).mpr ⟨c, w ++ q.rest, by simp [h1], hc, rfl⟩
        · simp [h1]
        · refine (ih (n + 1) (w ++ q.rest) ht).mpr ⟨w, ?_, rfl, ?_⟩
          · intro d hd; exact hw d (List.mem_cons_of_mem c hd)
          · simp [h2]; omega

theorem mem_run_star_range (lo hi : Char) (p q : Cursor) :
    q ∈ run (.star (.range lo hi)) p ↔
      ∃ w, (∀ c ∈ w, lo ≤ c ∧ c ≤ hi) ∧ p.rest = w ++ q.rest ∧
        q.before = p.before + w.length := by
  obtain ⟨n, l⟩ := p
  simp only [run]
  exact mem_iterate_range lo hi q l.length n l (Nat.le_refl _)

theorem mem_run_plus_range (lo hi : Char) (p q : Cursor) :
    q ∈ run (.plus (.range lo hi)) p ↔
      ∃ w, w ≠ [] ∧ (∀ c ∈ w, lo ≤ c ∧ c ≤ hi) ∧ p.rest = w ++ q.rest ∧
        q.before = p.before + w.length := by
  obtain ⟨n, l⟩ := p
  simp only [run, List.mem_flatMap]
  constructor
  · rintro ⟨a, ha, hq⟩
    obtain ⟨c, t, rfl, hc, rfl⟩ := (mem_run_range lo hi n l a).mp ha
    obtain ⟨w, hw, h1, h2⟩ := (mem_iterate_range lo hi q t.length (n + 1) t (Nat.le_refl _)).mp hq
    refine ⟨c :: w, by simp, ?_, ?_, ?_⟩
    · intro d hd
      rcases List.mem_cons.mp hd with rfl | hd
      · exact hc
      · exact hw d hd
    · simp [h1]
    · simp [h2]; omega
  · rintro ⟨w, hne, hw, h1, h2⟩
    cases w with
    | nil => exact absurd rfl hne
    | cons c w =>
      refine ⟨⟨n + 1, w ++ q.rest⟩, ?_, ?_⟩
      · exact (mem_run_range lo hi n l _).mpr ⟨c, w ++ q.rest, by simp [h1],
          hw c (List.mem_cons_self c w), rfl⟩
      · refine (mem_iterate_range lo hi q _ (n + 1) (w ++ q.rest) (Nat.le_refl _)).mpr
          ⟨w, ?_, rfl, ?_⟩
        · intro d hd; exact hw d (List.mem_cons_of_mem c hd)
        · simp [h2]; omega

theorem whole_lits_iff (w l : List Char) :
    (∃ q, q ∈ run (lits w) ⟨0, l⟩ ∧ q.rest = []) ↔ l = w := by
  constructor
  · rintro ⟨q, hq, hr⟩
    have h := ((mem_run_lits w _ q).mp hq).1
    simpa [hr] using h
  · rintro rfl
    exact ⟨⟨l.length, []⟩, (mem_run_lits l _ _).mpr ⟨by simp, by simp⟩, rfl⟩

theorem whole_numbered_iff (l : List Char) :
    (∃ q, q ∈ run (.cat (.star (.range '1' '9'))
        (.cat (.plus (.range '0' '9')) (lits ".root".toList))) ⟨0, l⟩ ∧ q.rest = []) ↔
      IsDigitsDotRoot l := by
  constructor
  · rintro ⟨q, hq, hr⟩
    obtain ⟨a, ha, hq⟩ := (mem_run_cat _ _ _ _).mp hq
    obtain ⟨b, hb, hq⟩ := (mem_run_cat _ _ _ _).mp hq
    obtain ⟨w1, hw1, h1, _⟩ := (mem_run_star_range '1' '9' ⟨0, l⟩ a).mp ha
    obtain ⟨w2, hne, hw2, h2, _⟩ := (mem_run_plus_range '0' '9' a b).mp hb
    have h3 := ((mem_run_lits _ b q).mp hq).1
    simp only at h1
    refine ⟨w1 ++ w2, by simp [hne], ?_, ?_⟩
    · intro c hc
      rcases List.mem_append.mp hc with hc | hc
      · exact ⟨le_trans (by decide) (hw1 c hc).1, (hw1 c hc).2⟩
      · exact hw2 c hc
    · rw [h1, h2, h3, hr]; simp
  · rintro ⟨ds, hne, hds, rfl⟩
    refine ⟨⟨ds.length + 5, []⟩, ?_, rfl⟩
    refine (mem_run_cat _ _ _ _).mpr ⟨⟨0, ds ++ ".root".toList⟩, ?_, ?_⟩
    · exact (mem_run_star_range '1' '9' _ _).mpr ⟨[], by simp, by simp, by simp⟩
    refine (mem_run_cat _ _ _ _).mpr ⟨⟨ds.length, ".root".toList⟩, ?_, ?_⟩
    · exact (mem_run_plus_range '0' '9' _ _).mpr ⟨ds, hne, hds, by simp, by simp⟩
    · exact (mem_run_lits _ _ _).mpr ⟨by simp, by simp⟩

/-- The language of `roleRegex`: the four fixed names, and the non-empty runs of
ASCII digits followed by `.root`. -/
theorem matchString_roleRegex_iff (s : String) :
    matchString roleRegex s = true ↔
      s.toList = "root".toList ∨ IsDigitsDotRoot s.toList ∨
        s.toList = "snapshot".toList ∨ s.toList = "timestamp".toList ∨
          s.toList = "targets".toList := by
  rw [matchString_iff]
  simp only [roleRegex, run_alt, List.mem_append, mem_run_anchored]
  constructor
  · rintro ⟨i, _, q, h⟩
    have hi : i = 0 := by
      rcases h with h | h | h | h | h <;> exact h.1
    subst hi
    simp only [List.drop_zero, true_and] at h
    rcases h with h | h | h | h | h
    · exact Or.inl ((whole_lits_iff _ _).mp ⟨q, h⟩)
    · exact Or.inr (Or.inl ((whole_numbered_iff _).mp ⟨q, h⟩))
    · exact Or.inr (Or.inr (Or.inl ((whole_lits_iff _ _).mp ⟨q, h⟩)))
    · exact Or.inr (Or.inr (Or.inr (Or.inl ((whole_lits_iff _ _).mp ⟨q, h⟩))))
    · exact Or.inr (Or.inr (Or.inr (Or.inr ((whole_lits_iff _ _).mp ⟨q, h⟩))))
  · intro h
    refine ⟨0, Nat.zero_le _, ?_⟩
    simp only [List.drop_zero, true_and]
    rcases h with h | h | h | h | h
    · obtain ⟨q, hq⟩ := (whole_lits_iff _ _).mpr h
      exact ⟨q, Or.inl hq⟩
    · obtain ⟨q, hq⟩ := (whole_numbered_iff _).mpr h
      exact ⟨q, Or.inr (Or.inl hq)⟩
    · obtain ⟨q, hq⟩ := (whole_lits_iff _ _).mpr h
      exact ⟨q, Or.inr (Or.inr (Or.inl hq))⟩
    · obtain ⟨q, hq⟩ := (whole_lits_iff _ _).mpr h
      exact ⟨q, Or.inr (Or.inr (Or.inr (Or.inl hq)))⟩
    · obtain ⟨q, hq⟩ := (whole_lits_iff _ _).mpr h
      exact ⟨q, Or.inr (Or.inr (Or.inr (Or.inr hq)))⟩

theorem validateRole_eq_none_iff (r : role) :
    validateRole r = none ↔ matchString roleRegex r = true := by
  unfold validateRole
  cases matchString roleRegex r <;> simp

/-! ## Decimal numerals -/

theorem digitChar_is_digit (m : Nat) (h : m < 10) :
    '0' ≤ Nat.digitChar m ∧ Nat.digitChar m ≤ '9' := by
  interval_cases m <;> decide

theorem toDigitsCore_digits (fuel : Nat) :
    ∀ (n : Nat) (ds : List Char), (∀ c ∈ ds, '0' ≤ c ∧ c ≤ '9') →
      ∀ c ∈ Nat.toDigitsCore 10 fuel n ds, '0' ≤ c ∧ c ≤ '9' := by
  induction fuel with
  | zero => intro n ds h; simpa [Nat.toDigitsCore] using h
  | succ fuel ih =>
    intro n ds h
    have hd : ∀ c ∈ Nat.digitChar (n % 10) :: ds, '0' ≤ c ∧ c ≤ '9' := by
      intro c hc
      rcases List.mem_cons.mp hc with rfl | hc
      · exact digitChar_is_digit _ (Nat.mod_lt _ (by decide))
      · exact h c hc
    simp only [Nat.toDigitsCore]
    split
    · exact hd
    · exact ih _ _ hd

theorem toDigitsCore_ne_nil (fuel : Nat) :
    ∀ (n : Nat) (ds : List Char), ds ≠ [] → Nat.toDigitsCore 10 fuel n ds ≠ [] := by
  induction fuel with
  | zero => intro n ds h; simpa [Nat.toDigitsCore] using h
  | succ fuel ih =>
    intro n ds _
    simp only [Nat.toDigitsCore]
    split
    · simp
    · exact ih _ _ (by simp)

theorem toString_toList (n : Nat) : (toString n).toList = Nat.toDigits 10 n := rfl

theorem toDigits_digits (n : Nat) : ∀ c ∈ Nat.toDigits 10 n, '0' ≤ c ∧ c ≤ '9' :=
  toDigitsCore_digits _ _ _ (by simp)

theorem toDigits_ne_nil (n : Nat) : Nat.toDigits 10 n ≠ [] := by
  unfold Nat.toDigits
  simp only [Nat.toDigitsCore]
  split
  · simp
  · exact toDigitsCore_ne_nil _ _ _ (by simp)

theorem numbered_toList (n : Nat) :
    (toString n ++ ".root").toList = Nat.toDigits 10 n ++ ".root".toList := by
  rw [String.toList, String.data_append]
  rfl

theorem numbered_isDigitsDotRoot (n : Nat) :
    IsDigitsDotRoot (toString n ++ ".root").toList :=
  ⟨Nat.toDigits 10 n, toDigits_ne_nil n, toDigits_digits n, numbered_toList n⟩

/-- The numeral of a number is `0` only for the number zero. -/
theorem toDigits_eq_zero (n : Nat) (h : Nat.toDigits 10 n = ['0']) : n = 0 := by
  rcases Nat.lt_or_ge n 10 with hlt | hge
  · interval_cases n
    · rfl
    all_goals exact absurd h (by decide)
  · exfalso
    have hq : n / 10 ≠ 0 := by omega
    have hlen := congrArg List.length h
    unfold Nat.toDigits at hlen
    simp only [Nat.toDigitsCore, hq, if_false] at hlen
    rw [Nat.toDigitsCore_lens_eq] at hlen
    have hne : Nat.toDigitsCore 10 n (n / 10) [] ≠ [] := by
      obtain ⟨k, rfl⟩ : ∃ k, n = k + 1 := ⟨n - 1, by omega⟩
      simp only [Nat.toDigitsCore]
      split
      · simp
      · exact toDigitsCore_ne_nil _ _ _ (by simp)
    simp at hlen
    exact hne hlen

/-- The numeral of a positive number does not start with `0`. -/
theorem toDigitsCore_head (fuel : Nat) :
    ∀ (n : Nat) (ds : List Char), 0 < n → n < fuel →
      ∃ c t, Nat.toDigitsCore 10 fuel n ds = c :: t ∧ c ≠ '0' := by
  induction fuel with
  | zero => intro n ds _ h; exact absurd h (Nat.not_lt_zero n)
  | succ fuel ih =>
    intro n ds hpos hlt
    simp only [Nat.toDigitsCore]
    split
    · rename_i hq
      have hn : n < 10 := by omega
      refine ⟨_, _, rfl, ?_⟩
      rw [Nat.mod_eq_of_lt hn]
      interval_cases n <;> decide
    · rename_i hq
      exact ih (n / 10) _ (by omega) (by omega)

theorem toDigits_head (n : Nat) (h : 0 < n) :
    ∃ c t, Nat.toDigits 10 n = c :: t ∧ c ≠ '0' :=
  toDigitsCore_head (n + 1) n [] h (Nat.lt_succ_self n)

/-- A text that starts with `0` is not the numeral of a positive number followed
by `.root`. -/
theorem not_numbered_of_leading_zero (r : String) (h0 : r.toList.head? = some '0') :
    ¬ ∃ n : Nat, 0 < n ∧ r = toString n ++ ".root" := by
  rintro ⟨n, hn, rfl⟩
  obtain ⟨c, t, hct, hc⟩ := toDigits_head n hn
  rw [numbered_toList, hct] at h0
  simp only [List.cons_append, List.head?_cons, Option.some.injEq] at h0
  exact hc h0

/-! ## Role validation -/

theorem isRoleChar_of_digit (c : Char) (h : '0' ≤ c ∧ c ≤ '9') : IsRoleChar c :=
  Or.inr (Or.inl h)

theorem isDigitsDotRoot_shape (l : List Char) (h : IsDigitsDotRoot l) :
    l ≠ [] ∧ (∀ c ∈ l, IsRoleChar c) ∧ l.count '.' ≤ 1 := by
  obtain ⟨ds, _, hds, rfl⟩ := h
  refine ⟨by simp, ?_, ?_⟩
  · intro c hc
    rcases List.mem_append.mp hc with hc | hc
    · exact isRoleChar_of_digit c (hds c hc)
    · have hsuffix : ∀ d ∈ ".root".toList, IsRoleChar d := by unfold IsRoleChar; decide
      exact hsuffix c hc
  · have h0 : ds.count '.' = 0 := by
      apply List.count_eq_zero.mpr
      intro hmem
      exact absurd (hds '.' hmem) (by decide)
    rw [List.count_append, h0]
    decide

theorem accepted_shape (l : List Char)
    (h : l = "root".toList ∨ IsDigitsDotRoot l ∨ l = "snapshot".toList ∨
      l = "timestamp".toList ∨ l = "targets".toList) :
    l ≠ [] ∧ (∀ c ∈ l, IsRoleChar c) ∧ l.count '.' ≤ 1 := by
  rcases h with rfl | h | rfl | rfl | rfl
  · exact ⟨by decide, by unfold IsRoleChar; decide, by decide⟩
  · exact isDigitsDotRoot_shape l h
  · exact ⟨by decide, by unfold IsRoleChar; decide, by decide⟩
  · exact ⟨by decide, by unfold IsRoleChar; decide, by decide⟩
  · exact ⟨by decide, by unfold IsRoleChar; decide, by decide⟩

theorem isRoleChar_excludes (c : Char) (h : IsRoleChar c) :
    c ≠ '/' ∧ c ≠ Char.ofNat 92 ∧ c.isWhitespace = false ∧ c ≠ Char.ofNat 0 := by
  unfold IsRoleChar at h
  refine ⟨?_, ?_, ?_, ?_⟩
  · rintro rfl; revert h; decide
  · rintro rfl; revert h; decide
  · simp only [Char.isWhitespace, Bool.or_eq_false_iff, decide_eq_false_iff_not]
    refine ⟨⟨⟨?_, ?_⟩, ?_⟩, ?_⟩ <;> (rintro rfl; revert h; decide)
  · rintro rfl; revert h; decide

theorem count_two_of_infix (l : List Char) (h : "..".toList <:+: l) : 2 ≤ l.count '.' := by
  obtain ⟨a, b, rfl⟩ := h
  simp only [List.count_append]
  have : List.count '.' "..".toList = 2 := by decide
  omega

/-- C1, evaluated on the code: `validateRole` returns nil for `0.root`, `00.root`
and `01.root`, although none of the three is an identifier of the role grammar
(a fixed name, or the numeral of a positive integer without a leading zero
followed by `.root`). -/
theorem validateRole_accepts_leading_zero :
    (validateRole "0.root" = none ∧ ¬ InRoleGrammar "0.root") ∧
      (validateRole "00.root" = none ∧ ¬ InRoleGrammar "00.root") ∧
        (validateRole "01.root" = none ∧ ¬ InRoleGrammar "01.root") := by
  refine ⟨⟨by decide, ?_⟩, ⟨by decide, ?_⟩, ⟨by decide, ?_⟩⟩
  · rintro (h | h | h | h | h)
    · exact absurd h (by decide)
    · exact absurd h (by decide)
    · exact absurd h (by decide)
    · exact absurd h (by decide)
    · exact not_numbered_of_leading_zero "0.root" (by decide) h
  · rintro (h | h | h | h | h)
    · exact absurd h (by decide)
    · exact absurd h (by decide)
    · exact absurd h (by decide)
    · exact absurd h (by decide)
    · exact not_numbered_of_leading_zero "00.root" (by decide) h
  · rintro (h | h | h | h | h)
    · exact absurd h (by decide)
    · exact absurd h (by decide)
    · exact absurd h (by decide)
    · exact absurd h (by decide)
    · exact not_numbered_of_leading_zero "01.root" (by decide) h

/-- C2: `validateRole` returns nil for every identifier of the role grammar: the
names `root`, `snapshot`, `timestamp`, `targets`, and the decimal numeral of any
positive integer followed by `.root`. -/
theorem validateRole_accepts_grammar (r : role) (h : InRoleGrammar r) :
    validateRole r = none := by
  rw [validateRole_eq_none_iff, matchString_roleRegex_iff]
  rcases h with rfl | rfl | rfl | rfl | ⟨n, _, rfl⟩
  · exact Or.inl rfl
  · exact Or.inr (Or.inr (Or.inl rfl))
  · exact Or.inr (Or.inr (Or.inr (Or.inl rfl)))
  · exact Or.inr (Or.inr (Or.inr (Or.inr rfl)))
  · exact Or.inr (Or.inl (numbered_isDigitsDotRoot n))

theorem validateRole_accepts_grammar_witness :
    InRoleGrammar "12.root" ∧ validateRole "12.root" = none :=
  have h : InRoleGrammar "12.root" :=
    Or.inr (Or.inr (Or.inr (Or.inr ⟨12, by decide, by decide⟩)))
  ⟨h, validateRole_accepts_grammar "12.root" h⟩

/-- C3: an identifier for which `validateRole` returns nil is non-empty, consists
only of ASCII lowercase letters, ASCII digits and dots, and has at most one dot;
so it has no slash, no backslash, no `..`, no whitespace or newline and no NUL. -/
theorem validateRole_accepted_is_path_safe (r : role) (h : validateRole r = none) :
    r ≠ "" ∧ (∀ c ∈ r.toList, IsRoleChar c) ∧ r.toList.count '.' ≤ 1 ∧
      '/' ∉ r.toList ∧ Char.ofNat 92 ∉ r.toList ∧ ¬ ("..".toList <:+: r.toList) ∧
        (∀ c ∈ r.toList, c.isWhitespace = false) ∧ '\n' ∉ r.toList ∧
          Char.ofNat 0 ∉ r.toList := by
  rw [validateRole_eq_none_iff, matchString_roleRegex_iff] at h
  obtain ⟨hne, hchars, hcount⟩ := accepted_shape r.toList h
  refine ⟨?_, hchars, hcount, ?_, ?_, ?_, ?_, ?_, ?_⟩
  · rintro rfl; exact hne rfl
  · intro hm; exact (isRoleChar_excludes _ (hchars _ hm)).1 rfl
  · intro hm; exact (isRoleChar_excludes _ (hchars _ hm)).2.1 rfl
  · intro hi
    have := count_two_of_infix _ hi
    omega
  · intro c hm; exact (isRoleChar_excludes c (hchars c hm)).2.2.1
  · intro hm
    have := (isRoleChar_excludes _ (hchars _ hm)).2.2.1
    exact absurd this (by decide)
  · intro hm; exact (isRoleChar_excludes _ (hchars _ hm)).2.2.2 rfl

theorem validateRole_accepted_is_path_safe_witness :
    validateRole "3.root" = none ∧ "3.root" ≠ "" ∧ '/' ∉ "3.root".toList :=
  have h : validateRole "3.root" = none := by decide
  ⟨h, (validateRole_accepted_is_path_safe "3.root" h).1,
    (validateRole_accepted_is_path_safe "3.root" h).2.2.2.1⟩

/-! ## Constructors -/

theorem newNotaryRepo_of_parse_error (parse : Parse) (baseURL gun : String)
    (maxResponseSize : Int) (skipVerify : Bool) (e : GoError)
    (h : parse baseURL = .error e) :
    newNotaryRepo parse baseURL gun maxResponseSize skipVerify =
      (none, some (.wrap (.wrap e "tuf remote repo url validation failed")
        "new tuf remote repo")) := by
  simp [newNotaryRepo, validateURL, h, wrap]

theorem newNotaryRepo_of_parse_ok (parse : Parse) (baseURL gun : String)
    (maxResponseSize : Int) (skipVerify : Bool) (u : URL)
    (h : parse baseURL = .ok u) :
    newNotaryRepo parse baseURL gun maxResponseSize skipVerify =
      if u.Scheme = "https" then
        (some { url := some u, skipVerify := skipVerify, gun := gun,
                maxResponseSize := maxResponseSize }, none)
      else
        (none, some (.wrap (.errorf "tuf url scheme must be %q" ["https"])
          "new tuf remote repo")) := by
  by_cases hs : u.Scheme = "https" <;>
    simp [newNotaryRepo, validateURL, h, wrap, tufURLScheme, hs]

/-- C4: when the parsed scheme of `baseURL` is not `https`, `newNotaryRepo` returns
a nil repository and a non-nil error, for every gun, size and `skipVerify`; and
the error and the presence of a repository are the same for both values of
`skipVerify`. -/
theorem newNotaryRepo_rejects_non_https (parse : Parse) (baseURL gun : String)
    (maxResponseSize : Int) (skipVerify : Bool) :
    ((∀ u, parse baseURL = .ok u → u.Scheme ≠ "https") →
        (newNotaryRepo parse baseURL gun maxResponseSize skipVerify).1 = none ∧
          (newNotaryRepo parse baseURL gun maxResponseSize skipVerify).2 ≠ none) ∧
      (newNotaryRepo parse baseURL gun maxResponseSize (!skipVerify)).2 =
          (newNotaryRepo parse baseURL gun maxResponseSize skipVerify).2 ∧
        (newNotaryRepo parse baseURL gun maxResponseSize (!skipVerify)).1.isSome =
          (newNotaryRepo parse baseURL gun maxResponseSize skipVerify).1.isSome := by
  cases h : parse baseURL with
  | error e =>
    simp [newNotaryRepo_of_parse_error parse baseURL gun maxResponseSize _ e h]
  | ok u =>
    simp only [newNotaryRepo_of_parse_ok parse baseURL gun maxResponseSize _ u h]
    by_cases hs : u.Scheme = "https"
    · simp [hs]
    · simp [hs]

theorem newNotaryRepo_rejects_non_https_witness :
    (newNotaryRepo (fun _ => .ok ⟨"http", "", "example.com", "", "", ""⟩)
        "http://example.com" "myapp" 5242880 true).1 = none ∧
      (newNotaryRepo (fun _ => .ok ⟨"http", "", "example.com", "", "", ""⟩)
        "http://example.com" "myapp" 5242880 true).2 ≠ none :=
  (newNotaryRepo_rejects_non_https (fun _ => .ok ⟨"http", "", "example.com", "", "", ""⟩)
    "http://example.com" "myapp" 5242880 true).1
    (by intro u hu; cases hu; decide)

/-- C10: when `baseURL` parses to a URL with scheme `https`, `newNotaryRepo` returns
a nil error and a repository that holds `gun`, `maxResponseSize` and `skipVerify`
as given (whatever the size, zero and negative sizes included) and the parsed
URL. -/
theorem newNotaryRepo_stores_arguments (parse : Parse) (baseURL gun : String)
    (maxResponseSize : Int) (skipVerify : Bool) (u : URL)
    (hp : parse baseURL = .ok u) (hs : u.Scheme = "https") :
    newNotaryRepo parse baseURL gun maxResponseSize skipVerify =
      (some { url := some u, skipVerify := skipVerify, gun := gun,
              maxResponseSize := maxResponseSize }, none) := by
  rw [newNotaryRepo_of_parse_ok parse baseURL gun maxResponseSize skipVerify u hp, if_pos hs]

theorem newNotaryRepo_stores_arguments_witness :
    newNotaryRepo (fun _ => .ok ⟨"https", "", "example.com", "", "", ""⟩)
        "https://example.com" "myapp" (-1) true =
      (some { url := some ⟨"https", "", "example.com", "", "", ""⟩, skipVerify := true,
              gun := "myapp", maxResponseSize := -1 }, none) :=
  newNotaryRepo_stores_arguments (fun _ => .ok ⟨"https", "", "example.com", "", "", ""⟩)
    "https://example.com" "myapp" (-1) true ⟨"https", "", "example.com", "", "", ""⟩ rfl rfl

/-- C5: `newLocalRepo` decides on the stat of the path: a stat that reports that the
path does not exist, or a successful stat of something that is not a directory,
gives a nil repository and a non-nil error; a successful stat of a directory
gives a nil error and a repository whose `repoPath` is the argument. -/
theorem newLocalRepo_decides_on_stat (stat : Stat) (repoPath : String) :
    (∀ e, stat repoPath = .error e → isNotExist (some e) = true →
        ∃ err, newLocalRepo stat repoPath = .ok (none, some err)) ∧
      (∀ fi, stat repoPath = .ok fi → fi.isDir = false →
        ∃ err, newLocalRepo stat repoPath = .ok (none, some err)) ∧
      (∀ fi, stat repoPath = .ok fi → fi.isDir = true →
        newLocalRepo stat repoPath = .ok (some { repoPath := repoPath }, none)) := by
  refine ⟨?_, ?_, ?_⟩
  · intro e he hne
    exact ⟨_, by simp [newLocalRepo, validatePath, he, hne, wrap]; rfl⟩
  · intro fi hfi hdir
    exact ⟨_, by simp [newLocalRepo, validatePath, hfi, hdir, wrap, isNotExist]; rfl⟩
  · intro fi hfi hdir
    simp [newLocalRepo, validatePath, hfi, hdir, isNotExist]

theorem newLocalRepo_decides_on_stat_witness :
    (∃ err, newLocalRepo (fun p => .error (.pathError "stat" p .ENOENT)) "/no/such" =
        .ok (none, some err)) ∧
      (∃ err, newLocalRepo (fun _ => .ok ⟨"passwd", 1024, false⟩) "/etc/passwd" =
        .ok (none, some err)) ∧
      newLocalRepo (fun _ => .ok ⟨"tuf", 4096, true⟩) "/var/tuf" =
        .ok (some { repoPath := "/var/tuf" }, none) :=
  ⟨(newLocalRepo_decides_on_stat (fun p => .error (.pathError "stat" p .ENOENT))
      "/no/such").1 _ rfl rfl,
    (newLocalRepo_decides_on_stat (fun _ => .ok ⟨"passwd", 1024, false⟩)
      "/etc/passwd").2.1 _ rfl rfl,
    (newLocalRepo_decides_on_stat (fun _ => .ok ⟨"tuf", 4096, true⟩)
      "/var/tuf").2.2 _ rfl rfl⟩

/-! ## The role/type guard -/

theorem isRoleCorrect_of_meta (r : role) (t : MetaType) (s : Payload)
    (hs : IsValueOrPointerOf t s) :
    isRoleCorrect r s =
      if r = (match t with
          | .Root => roleRoot
          | .Targets => roleTargets
          | .Timestamp => roleTimestamp
          | .Snapshot => roleSnapshot) then .ok ()
      else .error (.explicit mismatchMessage) := by
  rcases hs with rfl | rfl <;> cases t <;>
    simp only [isRoleCorrect, mismatchMessage] <;> split <;> simp_all

theorem isRoleCorrect_of_not_meta (r : role) (s : Payload)
    (hs : ∀ t, ¬ IsValueOrPointerOf t s) :
    isRoleCorrect r s = .error (.explicit mismatchMessage) := by
  cases s with
  | value t => exact absurd (Or.inl rfl) (hs t)
  | pointer t => exact absurd (Or.inr rfl) (hs t)
  | other name => simp [isRoleCorrect, mismatchMessage]
  | nil => simp [isRoleCorrect, mismatchMessage]

theorem numbered_ne_of_no_dot (n : Nat) (r : String) (h : '.' ∉ r.toList) :
    toString n ++ ".root" ≠ r := by
  rintro rfl
  apply h
  rw [numbered_toList]
  exact List.mem_append_right _ (by decide)

/-- C6: for a base role (`root`, `snapshot`, `timestamp`, `targets`) and any
payload, `isRoleCorrect` returns normally exactly when the payload is a value or
a pointer of the type paired with the role; for every other payload (one of
another type, or nil) it panics. -/
theorem isRoleCorrect_base_roles (r : role) (s : Payload)
    (hr : r = "root" ∨ r = "snapshot" ∨ r = "timestamp" ∨ r = "targets") :
    (isRoleCorrect r s = .ok () ↔ ∃ t, pairedType r = some t ∧ IsValueOrPointerOf t s) ∧
      ((¬ ∃ t, pairedType r = some t ∧ IsValueOrPointerOf t s) →
        isRoleCorrect r s = .error (.explicit mismatchMessage)) := by
  rcases hr with rfl | rfl | rfl | rfl <;> cases s with
  | value t =>
    cases t <;>
      simp [isRoleCorrect, pairedType, IsValueOrPointerOf, roleRoot, roleTargets,
        roleTimestamp, roleSnapshot, mismatchMessage]
  | pointer t =>
    cases t <;>
      simp [isRoleCorrect, pairedType, IsValueOrPointerOf, roleRoot, roleTargets,
        roleTimestamp, roleSnapshot, mismatchMessage]
  | other name =>
    simp [isRoleCorrect, pairedType, IsValueOrPointerOf, mismatchMessage]
  | nil =>
    simp [isRoleCorrect, pairedType, IsValueOrPointerOf, mismatchMessage]

theorem isRoleCorrect_base_roles_witness :
    (isRoleCorrect "snapshot" (.pointer .Snapshot) = .ok () ↔
        ∃ t, pairedType "snapshot" = some t ∧ IsValueOrPointerOf t (.pointer .Snapshot)) ∧
      ((¬ ∃ t, pairedType "snapshot" = some t ∧ IsValueOrPointerOf t (.pointer .Snapshot)) →
        isRoleCorrect "snapshot" (.pointer .Snapshot) = .error (.explicit mismatchMessage)) :=
  isRoleCorrect_base_roles "snapshot" (.pointer .Snapshot) (Or.inr (Or.inl rfl))

/-- C7, refuted on the code: for the numbered root `2.root`, `isRoleCorrect` panics
on a Root value and on a pointer to a Root. -/
theorem isRoleCorrect_numbered_root_counterexample :
    isRoleCorrect (toString 2 ++ ".root") (.value .Root) ≠ .ok () ∧
      isRoleCorrect (toString 2 ++ ".root") (.pointer .Root) ≠ .ok () ∧
        isRoleCorrect "2.root" (.value .Root) = .error (.explicit mismatchMessage) := by
  have h1 : isRoleCorrect (toString 2 ++ ".root") (.value .Root) =
      .error (.explicit mismatchMessage) := rfl
  have h2 : isRoleCorrect (toString 2 ++ ".root") (.pointer .Root) =
      .error (.explicit mismatchMessage) := rfl
  refine ⟨?_, ?_, rfl⟩
  · rw [h1]; exact fun h => Except.noConfusion h
  · rw [h2]; exact fun h => Except.noConfusion h

/-- C7, amended: a numbered root is paired with no payload type.  For every
positive integer `n` and every payload, a Root value or pointer included,
`isRoleCorrect` applied to the numeral of `n` followed by `.root` panics; a Root
value or pointer passes only with the role `root`. -/
theorem isRoleCorrect_numbered_root_aborts (n : Nat) (hn : 0 < n) (s : Payload) :
    isRoleCorrect (toString n ++ ".root") s = .error (.explicit mismatchMessage) ∧
      (IsValueOrPointerOf .Root s → ∀ r, isRoleCorrect r s = .ok () ↔ r = roleRoot) := by
  have _ := hn
  constructor
  · by_cases hs : ∃ t, IsValueOrPointerOf t s
    · obtain ⟨t, ht⟩ := hs
      rw [isRoleCorrect_of_meta _ t s ht, if_neg]
      cases t
      · exact numbered_ne_of_no_dot n roleRoot (by decide)
      · exact numbered_ne_of_no_dot n roleTargets (by decide)
      · exact numbered_ne_of_no_dot n roleTimestamp (by decide)
      · exact numbered_ne_of_no_dot n roleSnapshot (by decide)
    · exact isRoleCorrect_of_not_meta _ s (fun t ht => hs ⟨t, ht⟩)
  · intro hs r
    rw [isRoleCorrect_of_meta r .Root s hs]
    by_cases hr : r = roleRoot <;> simp [hr]

theorem isRoleCorrect_numbered_root_aborts_witness :
    isRoleCorrect (toString 7 ++ ".root") (.pointer .Root) =
        .error (.explicit mismatchMessage) ∧
      (IsValueOrPointerOf .Root (.pointer .Root) →
        ∀ r, isRoleCorrect r (.pointer .Root) = .ok () ↔ r = roleRoot) :=
  isRoleCorrect_numbered_root_aborts 7 (by decide) (.pointer .Root)

/-! ## The request path and the size constant -/

theorem substitute_tumAPIPattern (g r : List Char) :
    substitute tumAPIPattern.toList [g, r] =
      "/v2/".toList ++ g ++ "/_trust/tuf/".toList ++ r ++ ".json".toList := by
  simp [tumAPIPattern, substitute]

/-- C8: the request path is a function of group and role: filling the group `g`
and the role `r` into `tumAPIPattern` gives `/v2/` ++ g ++ `/_trust/tuf/` ++ r ++
`.json`; for `myapp` and `timestamp` it is `/v2/myapp/_trust/tuf/timestamp.json`,
and after the base URL `https://example.com` it is
`https://example.com/v2/myapp/_trust/tuf/timestamp.json`. -/
theorem metadataPath_eq (g r : String) :
    metadataPath g r = "/v2/" ++ g ++ "/_trust/tuf/" ++ r ++ ".json" ∧
      metadataPath "myapp" "timestamp" = "/v2/myapp/_trust/tuf/timestamp.json" ∧
        metadataURL "https://example.com" "myapp" "timestamp" =
          "https://example.com/v2/myapp/_trust/tuf/timestamp.json" := by
  refine ⟨?_, by decide, by decide⟩
  apply String.ext
  simp only [metadataPath, substitute_tumAPIPattern, String.data_append]
  rfl

/-- C9: the constant `defaultMaxResponseSize` is 5 MiB, that is
5 × 1024 × 1024 = 5,242,880 bytes. -/
theorem defaultMaxResponseSize_eq :
    defaultMaxResponseSize = 5 * 1024 * 1024 ∧ defaultMaxResponseSize = 5242880 := by
  decide

/-! ## The pattern without the `[1-9]*` prefix -/

theorem whole_digits_dot_root_iff (l : List Char) :
    (∃ q, q ∈ run (.cat (.plus (.range '0' '9')) (lits ".root".toList)) ⟨0, l⟩ ∧
        q.rest = []) ↔ IsDigitsDotRoot l := by
  constructor
  · rintro ⟨q, hq, hr⟩
    obtain ⟨b, hb, hq⟩ := (mem_run_cat _ _ _ _).mp hq
    obtain ⟨w, hne, hw, h1, _⟩ := (mem_run_plus_range '0' '9' ⟨0, l⟩ b).mp hb
    have h2 := ((mem_run_lits _ b q).mp hq).1
    simp only at h1
    exact ⟨w, hne, hw, by rw [h1, h2, hr]; simp⟩
  · rintro ⟨ds, hne, hds, rfl⟩
    refine ⟨⟨ds.length + 5, []⟩, ?_, rfl⟩
    refine (mem_run_cat _ _ _ _).mpr ⟨⟨ds.length, ".root".toList⟩, ?_, ?_⟩
    · exact (mem_run_plus_range '0' '9' _ _).mpr ⟨ds, hne, hds, by simp, by simp⟩
    · exact (mem_run_lits _ _ _).mpr ⟨by simp, by simp⟩

theorem matchString_withoutNonzeroRun_iff (s : String) :
    matchString roleRegexWithoutNonzeroRun s = true ↔
      s.toList = "root".toList ∨ IsDigitsDotRoot s.toList ∨
        s.toList = "snapshot".toList ∨ s.toList = "timestamp".toList ∨
          s.toList = "targets".toList := by
  rw [matchString_iff]
  simp only [roleRegexWithoutNonzeroRun, run_alt, List.mem_append, mem_run_anchored]
  constructor
  · rintro ⟨i, _, q, h⟩
    have hi : i = 0 := by
      rcases h with h | h | h | h | h <;> exact h.1
    subst hi
    simp only [List.drop_zero, true_and] at h
    rcases h with h | h | h | h | h
    · exact Or.inl ((whole_lits_iff _ _).mp ⟨q, h⟩)
    · exact Or.inr (Or.inl ((whole_digits_dot_root_iff _).mp ⟨q, h⟩))
    · exact Or.inr (Or.inr (Or.inl ((whole_lits_iff _ _).mp ⟨q, h⟩)))
    · exact Or.inr (Or.inr (Or.inr (Or.inl ((whole_lits_iff _ _).mp ⟨q, h⟩))))
    · exact Or.inr (Or.inr (Or.inr (Or.inr ((whole_lits_iff _ _).mp ⟨q, h⟩))))
  · intro h
    refine ⟨0, Nat.zero_le _, ?_⟩
    simp only [List.drop_zero, true_and]
    rcases h with h | h | h | h | h
    · obtain ⟨q, hq⟩ := (whole_lits_iff _ _).mpr h
      exact ⟨q, Or.inl hq⟩
    · obtain ⟨q, hq⟩ := (whole_digits_dot_root_iff _).mpr h
      exact ⟨q, Or.inr (Or.inl hq)⟩
    · obtain ⟨q, hq⟩ := (whole_lits_iff _ _).mpr h
      exact ⟨q, Or.inr (Or.inr (Or.inl hq))⟩
    · obtain ⟨q, hq⟩ := (whole_lits_iff _ _).mpr h
      exact ⟨q, Or.inr (Or.inr (Or.inr (Or.inl hq)))⟩
    · obtain ⟨q, hq⟩ := (whole_lits_iff _ _).mpr h
      exact ⟨q, Or.inr (Or.inr (Or.inr (Or.inr hq)))⟩

theorem toList_eq_iff (r t : String) : r.toList = t.toList ↔ r = t :=
  ⟨fun h => String.ext h, fun h => by rw [h]⟩

/-- C13: the `[1-9]*` prefix does not change the language of `roleRegex`: a text
matches `roleRegex` exactly when it matches the pattern without the prefix, and
`validateRole` returns nil exactly for the four fixed names and for the
non-empty runs of ASCII digits followed by `.root`. -/
theorem roleRegex_nonzeroRun_redundant (r : role) :
    matchString roleRegex r = matchString roleRegexWithoutNonzeroRun r ∧
      (validateRole r = none ↔
        r = "root" ∨ r = "snapshot" ∨ r = "timestamp" ∨ r = "targets" ∨
          IsDigitsDotRoot r.toList) := by
  constructor
  · rw [Bool.eq_iff_iff, matchString_roleRegex_iff, matchString_withoutNonzeroRun_iff]
  · rw [validateRole_eq_none_iff, matchString_roleRegex_iff]
    simp only [toList_eq_iff]
    tauto

/-! ## Panics and results of the constructors -/

theorem validatePath_of_stat_error (stat : Stat) (repoPath : String) (e : GoError)
    (h : stat repoPath = .error e) :
    validatePath stat repoPath =
      if isNotExist (some e) then .ok (some (.wrap e "tuf repo path validation failed"))
      else .error .nilDereference := by
  simp only [validatePath, h, wrap]

theorem validatePath_of_stat_ok (stat : Stat) (repoPath : String) (fi : FileInfo)
    (h : stat repoPath = .ok fi) :
    validatePath stat repoPath =
      if fi.isDir then .ok none
      else .ok (some (.errorf "tuf repo path %q must be a directory" [repoPath])) := by
  cases hd : fi.isDir <;> simp [validatePath, h, hd, isNotExist]

theorem newLocalRepo_of_stat_error (stat : Stat) (repoPath : String) (e : GoError)
    (h : stat repoPath = .error e) :
    newLocalRepo stat repoPath =
      if isNotExist (some e) then
        .ok (none, some (.wrap (.wrap e "tuf repo path validation failed") "new tuf repo"))
      else .error .nilDereference := by
  cases hn : isNotExist (some e) <;>
    simp [newLocalRepo, validatePath_of_stat_error stat repoPath e h, hn, wrap]

theorem newLocalRepo_of_stat_ok (stat : Stat) (repoPath : String) (fi : FileInfo)
    (h : stat repoPath = .ok fi) :
    newLocalRepo stat repoPath =
      if fi.isDir then .ok (some { repoPath := repoPath }, none)
      else .ok (none, some (.wrap
        (.errorf "tuf repo path %q must be a directory" [repoPath]) "new tuf repo")) := by
  cases hd : fi.isDir <;>
    simp [newLocalRepo, validatePath_of_stat_ok stat repoPath fi h, hd, wrap]

/-- C11, evaluated on the code: when the stat of the path fails with permission
denied (no file info, an error that `os.IsNotExist` does not recognise),
`validatePath` does not return: it calls `IsDir` on the missing file info and
panics, and `newLocalRepo` panics with it.  The same holds for a stat that fails
because a path component is not a directory. -/
theorem validatePath_panics_on_permission_denied :
    validatePath (fun p => .error (.pathError "stat" p .EACCES)) "/root/private/repo" =
        .error .nilDereference ∧
      newLocalRepo (fun p => .error (.pathError "stat" p .EACCES)) "/root/private/repo" =
        .error .nilDereference ∧
      validatePath (fun p => .error (.pathError "stat" p .ENOTDIR)) "/etc/passwd/repo" =
        .error .nilDereference :=
  ⟨rfl, rfl, rfl⟩

/-- C12: both constructors return exactly one of a repository and an error.
Whenever `newLocalRepo` returns, its repository is non-nil if and only if its
error is nil, and it returns unless the stat fails with an error other than
not-exist; `newNotaryRepo` always returns, and its repository is non-nil if and
only if its error is nil. -/
theorem constructors_return_repo_or_error (stat : Stat) (repoPath : String)
    (parse : Parse) (baseURL gun : String) (maxResponseSize : Int) (skipVerify : Bool) :
    (∀ res, newLocalRepo stat repoPath = .ok res → (res.1 ≠ none ↔ res.2 = none)) ∧
      ((∃ res, newLocalRepo stat repoPath = .ok res) ↔
        ∀ e, stat repoPath = .error e → isNotExist (some e) = true) ∧
      ((newNotaryRepo parse baseURL gun maxResponseSize skipVerify).1 ≠ none ↔
        (newNotaryRepo parse baseURL gun maxResponseSize skipVerify).2 = none) := by
  refine ⟨?_, ?_, ?_⟩
  · intro res hres
    cases h : stat repoPath with
    | error e =>
      rw [newLocalRepo_of_stat_error stat repoPath e h] at hres
      split at hres
      · cases hres; simp
      · cases hres
    | ok fi =>
      rw [newLocalRepo_of_stat_ok stat repoPath fi h] at hres
      split at hres <;> (cases hres; simp)
  · cases h : stat repoPath with
    | error e =>
      rw [newLocalRepo_of_stat_error stat repoPath e h]
      cases hn : isNotExist (some e)
      · simp only [Bool.false_eq_true, if_false]
        constructor
        · rintro ⟨res, hres⟩; cases hres
        · intro hall
          have := hall e rfl
          rw [hn] at this
          cases this
      · simp only [if_true]
        constructor
        · intro _ e2 he2
          cases he2
          exact hn
        · intro _
          exact ⟨_, rfl⟩
    | ok fi =>
      rw [newLocalRepo_of_stat_ok stat repoPath fi h]
      constructor
      · intro _ e he; cases he
      · intro _
        split
        · exact ⟨_, rfl⟩
        · exact ⟨_, rfl⟩
  · cases h : parse baseURL with
    | error e =>
      simp [newNotaryRepo_of_parse_error parse baseURL gun maxResponseSize skipVerify e h]
    | ok u =>
      rw [newNotaryRepo_of_parse_ok parse baseURL gun maxResponseSize skipVerify u h]
      split <;> simp

theorem constructors_return_repo_or_error_witness :
    (∃ res, newLocalRepo (fun _ => .ok ⟨"tuf", 4096, true⟩) "/var/tuf" = .ok res ∧
        (res.1 ≠ none ↔ res.2 = none)) ∧
      (∃ res, newLocalRepo (fun p => .error (.pathError "stat" p .ENOENT)) "/no/such" =
          .ok res ∧ (res.1 ≠ none ↔ res.2 = none)) :=
  ⟨⟨_, rfl, (constructors_return_repo_or_error (fun _ => .ok ⟨"tuf", 4096, true⟩)
      "/var/tuf" (fun _ => .ok ⟨"https", "", "example.com", "", "", ""⟩)
      "https://example.com" "myapp" 0 false).1 _ rfl⟩,
    ⟨_, rfl, (constructors_return_repo_or_error
      (fun p => .error (.pathError "stat" p .ENOENT)) "/no/such"
      (fun _ => .ok ⟨"http", "", "example.com", "", "", ""⟩)
      "http://example.com" "myapp" 0 false).1 _ rfl⟩⟩

end Tuf
